import Mathlib

/-!
# Verification of the image resize / stitch / slice pipeline

Shallow embedding of `src/services/imageService.ts` (and the legacy
service-layer variant in `src/unnamed/part_003`): the resize engine, the
height-bounded slicer and the vertical stitcher, together with proofs of
the testable properties of the specification.

Modelling conventions:
* JS numbers that hold pixel coordinates and dimensions are modelled as
  `Int` (the options are caller-supplied and may be non-positive).
* An `HTMLCanvasElement` is modelled as its dimensions plus the journal of
  drawing operations performed on its 2D context (`fillRect` with white,
  `drawImage`); pixel semantics of the browser rasteriser are outside the
  embedding.
* `canvas.toDataURL(mime, quality)` is modelled as a record of its inputs
  (the canvas, the mime format, the quality argument): the encoder is
  deterministic in those inputs but its byte output is platform code.
* `canvas.getContext('2d')` may return null in a browser; availability is
  an oracle parameter (`Bool` for the master canvas, `Nat → Bool` indexed
  by loop iteration for the per-slice canvases).
* The `while (currentY < targetHeight)` loop is given explicit fuel; a
  result of `timeout` for every fuel value models non-termination.
* `id` (built from `Date.now()`) and `sizeLabel` (derived from the encoded
  payload's length) depend on the clock and the platform codec and are
  omitted from the `SliceResult` record.
-/

namespace ImageSlicer

/-- `ExportFormat` from `src/types.ts` (the legacy variant also allows gif). -/
inductive ExportFormat
  | jpeg
  | png
  | gif
deriving DecidableEq, Repr

/-- `ProcessingOptions` from `src/types.ts` (the fields `processImage`
destructures, plus `keepAspectRatio`, which the service never reads). -/
structure ProcessingOptions where
  targetWidth : Int
  targetHeight : Int
  sliceHeight : Int
  enableSlicing : Bool
  keepAspectRatio : Bool
  exportFormat : ExportFormat
deriving DecidableEq, Repr

/-- A decoded source image: an opaque identity plus intrinsic dimensions
(`HTMLImageElement`, or the canvas handed in by the mosaic flow). -/
structure Image where
  id : Nat
  width : Int
  height : Int
deriving DecidableEq, Repr

/-- What `drawImage` reads from: a caller image, or the resize canvas of the
current `processImage` call (the slice loop copies from `resizeCanvas`). -/
inductive DrawSrc
  | image (img : Image)
  | masterCanvas
deriving DecidableEq, Repr

/-- One operation performed on a canvas 2D context.  `draw` records the
8-argument form `drawImage(src, sx, sy, sw, sh, dx, dy, dw, dh)`; the
4/5-argument forms are recorded with the source rectangle set to the full
source. -/
inductive DrawOp
  | fillWhite (x y w h : Int)
  | draw (src : DrawSrc) (sx sy sw sh dx dy dw dh : Int)
deriving DecidableEq, Repr

/-- A canvas: its dimensions and the journal of context operations. -/
structure Canvas where
  width : Int
  height : Int
  ops : List DrawOp
deriving DecidableEq, Repr

/-- The result of `canvas.toDataURL(mimeType, quality)`: deterministic in the
canvas contents, the mime format and the quality argument (`none` models the
`undefined` passed for non-jpeg formats). -/
structure Encoded where
  canvas : Canvas
  mime : ExportFormat
  quality : Option ℚ
deriving DecidableEq, Repr

/-- `SliceResult` from `src/types.ts`, without the clock-dependent `id` and
the codec-dependent `sizeLabel`. -/
structure SliceResult where
  url : Encoded
  index : Nat
  format : ExportFormat
deriving DecidableEq, Repr

/-- Outcome of one `processImage` call: a thrown error, a loop that is still
running after the given fuel, or the returned slice list. -/
inductive ProcResult
  | error (msg : String)
  | timeout
  | ok (slices : List SliceResult)
deriving DecidableEq, Repr

/-- The slice list of an `ok` outcome ([] otherwise). -/
def slicesOf : ProcResult → List SliceResult
  | .ok l => l
  | _ => []

/-- The quality argument `processImage` passes to `toDataURL`:
`exportFormat === 'jpeg' ? 1.0 : undefined` (imageService.ts lines 50, 89). -/
def qualityOf (fmt : ExportFormat) : Option ℚ :=
  if fmt = ExportFormat.jpeg then some 1 else none

/-- The master resize canvas built at imageService.ts lines 28–43: dimensions
`targetWidth × targetHeight`, white-filled first when jpeg, then the source
drawn scaled to exactly fill it. -/
def masterCanvas (img : Image) (o : ProcessingOptions) : Canvas :=
  { width := o.targetWidth
    height := o.targetHeight
    ops :=
      (if o.exportFormat = ExportFormat.jpeg then
        [DrawOp.fillWhite 0 0 o.targetWidth o.targetHeight]
      else []) ++
      [DrawOp.draw (DrawSrc.image img) 0 0 img.width img.height
        0 0 o.targetWidth o.targetHeight] }

/-- The per-band canvas built at imageService.ts lines 69–87 for the band
`(index, y, h)`: dimensions `targetWidth × h`, white-filled when jpeg, then
the rectangle `(0, y, targetWidth, h)` of the resize canvas copied in. -/
def sliceCanvas (tw : Int) (fmt : ExportFormat) (b : Nat × Int × Int) : Canvas :=
  { width := tw
    height := b.2.2
    ops :=
      (if fmt = ExportFormat.jpeg then [DrawOp.fillWhite 0 0 tw b.2.2] else []) ++
      [DrawOp.draw DrawSrc.masterCanvas 0 b.2.1 tw b.2.2 0 0 tw b.2.2] }

/-- The `SliceResult` pushed at imageService.ts lines 92–98 for the band
`(index, y, h)`. -/
def mkSlice (tw : Int) (fmt : ExportFormat) (q : Option ℚ)
    (b : Nat × Int × Int) : SliceResult :=
  { url := { canvas := sliceCanvas tw fmt b, mime := fmt, quality := q }
    index := b.1
    format := fmt }

/-- The single full-image `SliceResult` pushed at imageService.ts lines 53–59
when slicing is disabled. -/
def fullSlice (img : Image) (o : ProcessingOptions) : SliceResult :=
  { url := { canvas := masterCanvas img o, mime := o.exportFormat,
             quality := qualityOf o.exportFormat }
    index := 0
    format := o.exportFormat }

/-- The bands the loop at imageService.ts lines 66–103 walks through:
`(index, currentY, actualSliceHeight)` triples, with
`actualSliceHeight = min sliceHeight (targetHeight - currentY)` and
`currentY` advanced by the actual band height.  `fuel` bounds the number of
iterations; `none` means the loop is still running when the fuel runs out. -/
def bandsAux : Nat → Int → Int → Int → Nat → Option (List (Nat × Int × Int))
  | 0, th, _, y, _ => if y < th then none else some []
  | fuel + 1, th, sh, y, i =>
    if y < th then
      let h := min sh (th - y)
      (bandsAux fuel th sh (y + h) (i + 1)).map (fun r => (i, y, h) :: r)
    else some []

/-- The bands for a whole buffer: the loop started at `currentY = 0`,
`index = 0`, with enough fuel for one row per iteration. -/
def bands (th sh : Int) : Option (List (Nat × Int × Int)) :=
  bandsAux th.toNat th sh 0 0

/-- The slicing loop of imageService.ts lines 66–103: for each band, a fresh
canvas is created; if its 2D context is available (`if (sliceCtx)`) the band
is drawn, encoded and pushed, otherwise nothing is pushed; `currentY` and
`index` advance either way. -/
def sliceLoopAux : Nat → Int → Int → Int → ExportFormat → Option ℚ →
    (Nat → Bool) → Int → Nat → Option (List SliceResult)
  | 0, _, th, _, _, _, _, y, _ => if y < th then none else some []
  | fuel + 1, tw, th, sh, fmt, q, ctxOk, y, i =>
    if y < th then
      let h := min sh (th - y)
      let rest := sliceLoopAux fuel tw th sh fmt q ctxOk (y + h) (i + 1)
      if ctxOk i then rest.map (fun r => mkSlice tw fmt q (i, y, h) :: r)
      else rest
    else some []

/-- `processImage` from `src/services/imageService.ts` lines 22–106.
`masterCtxOk` / `sliceCtxOk` are the context-availability oracles and `fuel`
bounds the slicing loop's iterations. -/
def processImage (img : Image) (o : ProcessingOptions) (masterCtxOk : Bool)
    (sliceCtxOk : Nat → Bool) (fuel : Nat) : ProcResult :=
  if masterCtxOk = false then ProcResult.error "Could not get canvas context"
  else if o.enableSlicing = false then
    ProcResult.ok [fullSlice img o]
  else
    match sliceLoopAux fuel o.targetWidth o.targetHeight o.sliceHeight
        o.exportFormat (qualityOf o.exportFormat) sliceCtxOk 0 0 with
    | none => ProcResult.timeout
    | some l => ProcResult.ok l

/-- The quality argument of the legacy `processImage` variants in
`src/unnamed/part_003` (lines 69 and 175):
`exportFormat === 'jpeg' ? 0.92 : undefined`. -/
def legacyQualityOf (fmt : ExportFormat) : Option ℚ :=
  if fmt = ExportFormat.jpeg then some (92 / 100) else none

/-- The first legacy `processImage` variant, `src/unnamed/part_003` lines
19–86: same resize-then-slice structure, but no `enableSlicing` flag (it
always runs the slicing loop) and jpeg quality 0.92. -/
def processImageLegacy (img : Image) (o : ProcessingOptions)
    (masterCtxOk : Bool) (sliceCtxOk : Nat → Bool) (fuel : Nat) : ProcResult :=
  if masterCtxOk = false then ProcResult.error "Could not get canvas context"
  else
    match sliceLoopAux fuel o.targetWidth o.targetHeight o.sliceHeight
        o.exportFormat (legacyQualityOf o.exportFormat) sliceCtxOk 0 0 with
    | none => ProcResult.timeout
    | some l => ProcResult.ok l

/-- `scale = targetWidth / img.width; height = Math.round(img.height * scale)`
from `stitchImages` (imageService.ts lines 115–116), computed in ℚ;
`Math.round` rounds halves toward `+∞`, as Mathlib's `round` does. -/
def scaledHeight (tw : Int) (img : Image) : Int :=
  round ((img.height * tw : ℚ) / img.width)

/-- The drawing loop of `stitchImages` (imageService.ts lines 137–141): each
scaled image drawn at the cumulative Y offset, full source rectangle,
destination `targetWidth × height`. -/
def stitchDraws (tw : Int) : Int → List (Image × Int) → List DrawOp
  | _, [] => []
  | y, p :: rest =>
    DrawOp.draw (DrawSrc.image p.1) 0 0 p.1.width p.1.height 0 y tw p.2 ::
      stitchDraws tw (y + p.2) rest

/-- `stitchImages` from `src/services/imageService.ts` lines 108–144:
scaled heights and total height computed first, one canvas of the total
height created, white-filled when jpeg, then every image drawn in input
order at cumulative Y offsets.  `ctxOk` is the context oracle. -/
def stitchImages (images : List Image) (tw : Int) (fmt : ExportFormat)
    (ctxOk : Bool) : Except String Canvas :=
  let scaled := images.map fun img => (img, scaledHeight tw img)
  let totalHeight := (scaled.map fun p => p.2).sum
  if ctxOk = false then Except.error "Could not get canvas context"
  else
    Except.ok
      { width := tw
        height := totalHeight
        ops :=
          (if fmt = ExportFormat.jpeg then
            [DrawOp.fillWhite 0 0 tw totalHeight]
          else []) ++ stitchDraws tw 0 scaled }

/-- `true` iff the bands are consecutive starting at `y`: each band starts
where the previous one ended. -/
def consecutiveFromB : Int → List (Nat × Int × Int) → Bool
  | _, [] => true
  | y, b :: rest => (b.2.1 == y) && consecutiveFromB (y + b.2.2) rest

/-- `true` for a `drawImage` record, `false` for a background fill. -/
def isDrawB : DrawOp → Bool
  | DrawOp.draw .. => true
  | DrawOp.fillWhite .. => false

/-- `true` iff the canvas journal follows the format-aware fill discipline:
for jpeg the very first operation is a white fill of the entire canvas and
no other fill occurs; for png (and gif) no fill occurs at all. -/
def whiteFillFirstB (fmt : ExportFormat) (c : Canvas) : Bool :=
  match fmt, c.ops with
  | ExportFormat.jpeg, DrawOp.fillWhite x y w h :: rest =>
      (x == 0) && (y == 0) && (w == c.width) && (h == c.height) &&
        rest.all isDrawB
  | ExportFormat.jpeg, _ => false
  | _, ops => ops.all isDrawB

theorem bandsAux_spec (th sh : Int) (hsh : 1 ≤ sh) :
    ∀ (fuel : Nat) (y : Int) (i : Nat), y ≤ th → th - y ≤ (fuel : Int) →
    ∃ l, bandsAux fuel th sh y i = some l ∧
      consecutiveFromB y l = true ∧
      (l.map fun b => b.2.2).sum = th - y ∧
      (∀ b ∈ l, b.2.2 ≤ sh) ∧
      (∀ b ∈ l.dropLast, b.2.2 = sh) ∧
      l.map (fun b => b.1) = List.range' i l.length ∧
      (l = [] ↔ th ≤ y) ∧
      (l.length : Int) = (th - y + sh - 1) / sh := by
  intro fuel
  induction fuel with
  | zero =>
    intro y i hy hf
    have heq : y = th := by simpa using le_antisymm hy (by omega)
    refine ⟨[], ?_, ?_, ?_, ?_, ?_, ?_, ?_, ?_⟩ <;>
      simp [bandsAux, consecutiveFromB, heq]
    exact (Int.ediv_eq_zero_of_lt (by omega) (by omega)).symm
  | succ fuel ih =>
    intro y i hy hf
    by_cases hlt : y < th
    · have h1 : (1 : Int) ≤ min sh (th - y) := le_min hsh (by omega)
      have hle : min sh (th - y) ≤ th - y := min_le_right _ _
      obtain ⟨l', e', c', s', mb', dl', idx', emp', len'⟩ :=
        ih (y + min sh (th - y)) (i + 1) (by omega) (by omega)
      refine ⟨(i, y, min sh (th - y)) :: l', ?_, ?_, ?_, ?_, ?_, ?_, ?_, ?_⟩
      · simp [bandsAux, hlt, e']
      · simp [consecutiveFromB, c']
      · simp only [List.map_cons, List.sum_cons, s']
        omega
      · intro b hb
        rcases List.mem_cons.mp hb with hb | hb
        · subst hb; exact min_le_left _ _
        · exact mb' b hb
      · cases l' with
        | nil => simp
        | cons b'' l'' =>
          intro b hb
          rw [List.dropLast_cons_of_ne_nil (by simp)] at hb
          rcases List.mem_cons.mp hb with hb | hb
          · subst hb
            have hylt : ¬ th ≤ y + min sh (th - y) := by
              intro hc
              exact absurd (emp'.mpr hc) (by simp)
            show min sh (th - y) = sh
            omega
          · exact dl' b hb
      · simp only [List.map_cons, List.length_cons, idx', List.range'_succ]
      · simp only [List.cons_ne_nil, false_iff]
        omega
      · by_cases hmin : sh ≤ th - y
        · have hm : min sh (th - y) = sh := min_eq_left hmin
          rw [hm] at len'
          rw [show th - y + sh - 1 = (th - y - 1) + 1 * sh by ring,
            Int.add_mul_ediv_right _ _ (by omega : sh ≠ 0)]
          simp only [List.length_cons]
          push_cast
          rw [show th - (y + sh) + sh - 1 = th - y - 1 by ring] at len'
          omega
        · have hm : min sh (th - y) = th - y := min_eq_right (by omega)
          have hl' : l' = [] := emp'.mpr (by omega)
          subst hl'
          rw [show th - y + sh - 1 = (th - y - 1) + 1 * sh by ring,
            Int.add_mul_ediv_right _ _ (by omega : sh ≠ 0),
            Int.ediv_eq_zero_of_lt (by omega) (by omega)]
          simp
    · have heq : y = th := le_antisymm hy (by omega)
      refine ⟨[], ?_, ?_, ?_, ?_, ?_, ?_, ?_, ?_⟩ <;>
        simp [bandsAux, consecutiveFromB, hlt, heq]
      exact (Int.ediv_eq_zero_of_lt (by omega) (by omega)).symm

/-- The slicing loop produces exactly the bands whose per-slice context is
available, each turned into its `SliceResult`; the bands whose context is
unavailable leave no trace in the output (and raise no error). -/
theorem sliceLoopAux_eq (tw sh : Int) (fmt : ExportFormat) (q : Option ℚ)
    (ctxOk : Nat → Bool) :
    ∀ (fuel : Nat) (th y : Int) (i : Nat),
    sliceLoopAux fuel tw th sh fmt q ctxOk y i =
      (bandsAux fuel th sh y i).map
        (fun l => (l.filter fun b => ctxOk b.1).map (mkSlice tw fmt q)) := by
  intro fuel
  induction fuel with
  | zero =>
    intro th y i
    by_cases hlt : y < th <;> simp [sliceLoopAux, bandsAux, hlt]
  | succ fuel ih =>
    intro th y i
    by_cases hlt : y < th
    · cases hb : bandsAux fuel th sh (y + min sh (th - y)) (i + 1) with
      | none =>
        by_cases hc : ctxOk i <;>
          simp [sliceLoopAux, bandsAux, hlt, ih, hb, hc]
      | some l =>
        by_cases hc : ctxOk i <;>
          simp [sliceLoopAux, bandsAux, hlt, ih, hb, hc, List.filter_cons]
    · simp [sliceLoopAux, bandsAux, hlt]

/-- With slicing enabled and every per-slice context available, `processImage`
returns exactly the bands of the buffer, each as a `SliceResult`. -/
theorem processImage_enabled_allOk (img : Image) (o : ProcessingOptions)
    (fuel : Nat) (l : List (Nat × Int × Int))
    (he : o.enableSlicing = true)
    (hb : bandsAux fuel o.targetHeight o.sliceHeight 0 0 = some l) :
    processImage img o true (fun _ => true) fuel =
      ProcResult.ok (l.map (mkSlice o.targetWidth o.exportFormat
        (qualityOf o.exportFormat))) := by
  simp [processImage, he, sliceLoopAux_eq, hb]

/-- When the slice height is non-positive but the buffer has rows, the loop
never reaches `currentY >= targetHeight`: whatever the fuel, the loop is
still running (the band height `min sh (th - y)` is non-positive, so
`currentY` never advances past 0). -/
theorem bandsAux_nonpos_none (th sh : Int) (hth : 1 ≤ th) (hsh : sh ≤ 0) :
    ∀ (fuel : Nat) (y : Int) (i : Nat), y ≤ 0 →
      bandsAux fuel th sh y i = none := by
  intro fuel
  induction fuel with
  | zero =>
    intro y i hy
    simp [bandsAux, show y < th by omega]
  | succ fuel ih =>
    intro y i hy
    have hy' : y + min sh (th - y) ≤ 0 := by omega
    simp [bandsAux, show y < th by omega, ih _ (i + 1) hy']

/-- Every slice an outcome of `processImage` carries is either the single
full-image slice (slicing disabled) or the slice of one band of the loop. -/
theorem mem_slices_shape (img : Image) (o : ProcessingOptions) (m : Bool)
    (ctxOk : Nat → Bool) (fuel : Nat) (s : SliceResult)
    (hs : s ∈ slicesOf (processImage img o m ctxOk fuel)) :
    s = fullSlice img o ∨
      ∃ b, s = mkSlice o.targetWidth o.exportFormat
        (qualityOf o.exportFormat) b := by
  cases m with
  | false => simp [processImage, slicesOf] at hs
  | true =>
    by_cases he : o.enableSlicing = false
    · left
      simpa [processImage, he, slicesOf] using hs
    · right
      rw [processImage] at hs
      simp only [he, if_neg, Bool.true_eq_false, if_false, reduceIte] at hs
      rw [sliceLoopAux_eq] at hs
      cases hb : bandsAux fuel o.targetHeight o.sliceHeight 0 0 with
      | none => rw [hb] at hs; simp [slicesOf] at hs
      | some l =>
        rw [hb] at hs
        simp [slicesOf, List.mem_map] at hs
        obtain ⟨b1, b2, b3, _, hsb⟩ := hs
        exact ⟨(b1, b2, b3), hsb.symm⟩

/-- All operations of the stitch drawing loop are `drawImage` records. -/
theorem stitchDraws_all_draw (tw : Int) :
    ∀ (l : List (Image × Int)) (y : Int),
      (stitchDraws tw y l).all isDrawB = true := by
  intro l
  induction l with
  | nil => intro y; simp [stitchDraws]
  | cons p rest ih => intro y; simp [stitchDraws, isDrawB, ih]

/-- The stitch drawing loop, characterised positionally: the `k`-th source is
drawn at the Y offset `y` plus the sum of the heights before it. -/
theorem stitchDraws_scaled_eq (tw : Int) :
    ∀ (images : List Image) (y : Int),
    stitchDraws tw y (images.map fun img => (img, scaledHeight tw img)) =
      List.ofFn (fun k : Fin images.length =>
        DrawOp.draw (DrawSrc.image (images.get k)) 0 0 (images.get k).width
          (images.get k).height 0
          (y + ((images.map (scaledHeight tw)).take k).sum)
          tw (scaledHeight tw (images.get k))) := by
  intro images
  induction images with
  | nil => intro y; simp [stitchDraws]
  | cons a rest ih =>
    intro y
    simp only [List.map_cons, stitchDraws, List.length_cons, List.ofFn_succ,
      ih (y + scaledHeight tw a)]
    congr 1
    · simp
    · congr 1
      funext k
      congr 1
      simp [List.take_succ_cons]
      ring

/-- C1: for every buffer height `th ≥ 0` and slice height `sh > 0`, with
slicing enabled, the bands the slicer walks are consecutive starting at
`y = 0` (no gaps, no overlaps), their heights sum to exactly `th`, no band
is taller than `sh`, only the last band may be shorter, and `processImage`
returns exactly those bands as slices. -/
theorem claim1_bands_partition (th sh : Int) (h0 : 0 ≤ th) (h1 : 1 ≤ sh) :
    ∃ l, bands th sh = some l ∧
      consecutiveFromB 0 l = true ∧
      (l.map fun b => b.2.2).sum = th ∧
      (∀ b ∈ l, b.2.2 ≤ sh) ∧
      (∀ b ∈ l.dropLast, b.2.2 = sh) ∧
      ∀ (img : Image) (tw : Int) (ka : Bool) (fmt : ExportFormat),
        processImage img ⟨tw, th, sh, true, ka, fmt⟩ true (fun _ => true)
            th.toNat =
          ProcResult.ok (l.map (mkSlice tw fmt (qualityOf fmt))) := by
  obtain ⟨l, e, c, s, mb, dl, _, _, _⟩ :=
    bandsAux_spec th sh h1 th.toNat 0 0 h0 (by omega)
  refine ⟨l, e, c, by simpa using s, mb, dl, ?_⟩
  intro img tw ka fmt
  exact processImage_enabled_allOk img ⟨tw, th, sh, true, ka, fmt⟩ th.toNat l
    rfl e

/-- C1 witness: the partition of a 5-row buffer into bands of height 2. -/
theorem claim1_bands_partition_witness :
    ∃ l, bands 5 2 = some l ∧
      consecutiveFromB 0 l = true ∧
      (l.map fun b => b.2.2).sum = 5 ∧
      (∀ b ∈ l, b.2.2 ≤ 2) ∧
      (∀ b ∈ l.dropLast, b.2.2 = 2) ∧
      ∀ (img : Image) (tw : Int) (ka : Bool) (fmt : ExportFormat),
        processImage img ⟨tw, 5, 2, true, ka, fmt⟩ true (fun _ => true)
            (5 : Int).toNat =
          ProcResult.ok (l.map (mkSlice tw fmt (qualityOf fmt))) :=
  claim1_bands_partition 5 2 (by norm_num) (by norm_num)

/-- C2: with every context available, the slice indices form the contiguous
sequence `0 .. n-1`, with `n = ceil(targetHeight / sliceHeight)` when slicing
is enabled and `n = 1` when it is disabled. -/
theorem claim2_slice_indices (img : Image) (o : ProcessingOptions)
    (fuel : Nat) (h0 : 0 ≤ o.targetHeight) (h1 : 1 ≤ o.sliceHeight)
    (hf : o.targetHeight ≤ (fuel : Int)) :
    ∃ slices, processImage img o true (fun _ => true) fuel =
        ProcResult.ok slices ∧
      slices.map (fun s => s.index) =
        List.range (if o.enableSlicing then
          ((o.targetHeight + o.sliceHeight - 1) / o.sliceHeight).toNat
        else 1) := by
  by_cases he : o.enableSlicing = true
  · obtain ⟨l, e, _, _, _, _, idx, _, len⟩ :=
      bandsAux_spec o.targetHeight o.sliceHeight h1 fuel 0 0 h0 (by omega)
    refine ⟨_, processImage_enabled_allOk img o fuel l he e, ?_⟩
    rw [List.map_map]
    have hmap : (fun s => s.index) ∘
        mkSlice o.targetWidth o.exportFormat (qualityOf o.exportFormat) =
        fun b : Nat × Int × Int => b.1 := by
      funext b
      rfl
    rw [sub_zero] at len
    rw [hmap, idx, he, if_pos rfl, List.range_eq_range']
    congr 1
    omega
  · have he' : o.enableSlicing = false := by
      revert he
      cases o.enableSlicing <;> simp
    refine ⟨[fullSlice img o], ?_, ?_⟩
    · simp [processImage, he']
    · rw [he']
      rfl

/-- C2 witness: a 5-row buffer with slice height 2 yields indices
`[0, 1, 2] = range (ceil 5/2)`. -/
theorem claim2_slice_indices_witness :
    ∃ slices, processImage ⟨0, 10, 20⟩
        ⟨8, 5, 2, true, true, ExportFormat.jpeg⟩ true (fun _ => true) 5 =
        ProcResult.ok slices ∧
      slices.map (fun s => s.index) =
        List.range (if (⟨8, 5, 2, true, true,
            ExportFormat.jpeg⟩ : ProcessingOptions).enableSlicing then
          (((⟨8, 5, 2, true, true,
              ExportFormat.jpeg⟩ : ProcessingOptions).targetHeight +
            (⟨8, 5, 2, true, true,
              ExportFormat.jpeg⟩ : ProcessingOptions).sliceHeight - 1) /
            (⟨8, 5, 2, true, true,
              ExportFormat.jpeg⟩ : ProcessingOptions).sliceHeight).toNat
        else 1) :=
  claim2_slice_indices ⟨0, 10, 20⟩ ⟨8, 5, 2, true, true, ExportFormat.jpeg⟩ 5
    (by norm_num) (by norm_num) (by norm_num)

/-- C3: the claim that a violated positivity invariant still yields a defined
(empty) result is contradicted by the code: with `targetHeight = 1 > 0`,
`sliceHeight = 0` and slicing enabled, the band height is
`min 0 (1 - 0) = 0`, `currentY` never advances, and the `while` loop never
terminates — after any number of iterations `processImage` has not
returned. -/
theorem claim3_nonpositive_sliceHeight_diverges (fuel : Nat) :
    processImage ⟨0, 100, 200⟩ ⟨800, 1, 0, true, true, ExportFormat.jpeg⟩
      true (fun _ => true) fuel = ProcResult.timeout := by
  simp [processImage, sliceLoopAux_eq,
    bandsAux_nonpos_none 1 0 (by norm_num) le_rfl fuel 0 0 le_rfl]

/-- C4: the stitched canvas height is the sum over the sources of
`round(height * targetWidth / width)`; the `k`-th source is drawn at the
cumulative Y offset (the sum of the scaled heights before it); the empty
input list yields a zero-height canvas. -/
theorem claim4_stitch_height_order (images : List Image) (tw : Int)
    (fmt : ExportFormat) :
    ∃ c, stitchImages images tw fmt true = Except.ok c ∧
      c.height = (images.map (scaledHeight tw)).sum ∧
      c.ops.filter isDrawB = List.ofFn (fun k : Fin images.length =>
        DrawOp.draw (DrawSrc.image (images.get k)) 0 0 (images.get k).width
          (images.get k).height 0
          (((images.map (scaledHeight tw)).take k).sum)
          tw (scaledHeight tw (images.get k))) ∧
      ∃ c0, stitchImages [] tw fmt true = Except.ok c0 ∧ c0.height = 0 := by
  refine ⟨_, rfl, ?_, ?_, ⟨_, rfl, by simp [stitchImages]⟩⟩
  · simp [List.map_map]
    rfl
  · show ((if fmt = ExportFormat.jpeg then _ else []) ++
      stitchDraws tw 0 _).filter isDrawB = _
    rw [List.filter_append]
    have hfill : (if fmt = ExportFormat.jpeg then
        [DrawOp.fillWhite 0 0 tw ((images.map fun img =>
          (img, scaledHeight tw img)).map (fun p => p.2)).sum]
      else []).filter isDrawB = [] := by
      by_cases hj : fmt = ExportFormat.jpeg <;> simp [hj, isDrawB]
    rw [hfill, List.nil_append,
      List.filter_eq_self.mpr
        (fun a ha => by
          have := stitchDraws_all_draw tw
            (images.map fun img => (img, scaledHeight tw img)) 0
          exact (List.all_eq_true.mp this) a ha),
      stitchDraws_scaled_eq]
    simp only [zero_add]

/-- C5: with slicing disabled, `processImage` returns exactly one
`SliceResult`, with index 0, covering the entire resized buffer (its canvas
is the full master resize canvas). -/
theorem claim5_disabled_single_slice (img : Image) (o : ProcessingOptions)
    (ctxOk : Nat → Bool) (fuel : Nat) (he : o.enableSlicing = false) :
    processImage img o true ctxOk fuel = ProcResult.ok [fullSlice img o] ∧
      (fullSlice img o).index = 0 ∧
      (fullSlice img o).url.canvas = masterCanvas img o := by
  exact ⟨by simp [processImage, he], rfl, rfl⟩

/-- C5 witness: a concrete disabled-slicing call returns the one full slice
whatever the slice height. -/
theorem claim5_disabled_single_slice_witness :
    processImage ⟨1, 3, 5⟩ ⟨7, 9, 4, false, true, ExportFormat.png⟩ true
        (fun _ => true) 0 =
      ProcResult.ok [fullSlice ⟨1, 3, 5⟩
        ⟨7, 9, 4, false, true, ExportFormat.png⟩] ∧
      (fullSlice ⟨1, 3, 5⟩ ⟨7, 9, 4, false, true, ExportFormat.png⟩).index =
        0 ∧
      (fullSlice ⟨1, 3, 5⟩
          ⟨7, 9, 4, false, true, ExportFormat.png⟩).url.canvas =
        masterCanvas ⟨1, 3, 5⟩ ⟨7, 9, 4, false, true, ExportFormat.png⟩ :=
  claim5_disabled_single_slice ⟨1, 3, 5⟩
    ⟨7, 9, 4, false, true, ExportFormat.png⟩ (fun _ => true) 0 rfl

/-- C6 counterexample: the legacy service-layer slicer variant
(`src/unnamed/part_003`, line 69) passes quality 0.92, not 1.0, to the jpeg
encoder: the claim fails for that variant. -/
theorem claim6_counterexample :
    (slicesOf (processImageLegacy ⟨0, 100, 200⟩
        ⟨50, 40, 40, true, true, ExportFormat.jpeg⟩ true (fun _ => true)
        40)).map (fun s => s.url.quality) = [some (92 / 100 : ℚ)] ∧
      (some (92 / 100 : ℚ) : Option ℚ) ≠ some (1 : ℚ) := by
  constructor
  · rfl
  · simp only [ne_eq, Option.some.injEq]
    norm_num

/-- C6 amended: in the current service variant
(`src/services/imageService.ts`) every slice `processImage` produces is
encoded with quality exactly 1.0 when the format is jpeg (and with the
quality argument left undefined otherwise); the legacy variant in
`src/unnamed/part_003` instead passes 0.92. -/
theorem claim6_current_quality_max (img : Image) (o : ProcessingOptions)
    (m : Bool) (ctxOk : Nat → Bool) (fuel : Nat) (s : SliceResult)
    (hs : s ∈ slicesOf (processImage img o m ctxOk fuel)) :
    s.url.quality = (if o.exportFormat = ExportFormat.jpeg then
      some (1 : ℚ) else none) := by
  rcases mem_slices_shape img o m ctxOk fuel s hs with h | ⟨b, h⟩ <;>
    subst h <;> rfl

/-- C6 witness: the single slice of a disabled-slicing jpeg call carries
quality 1.0. -/
theorem claim6_current_quality_max_witness :
    (fullSlice ⟨2, 4, 6⟩
        ⟨5, 3, 2, false, true, ExportFormat.jpeg⟩).url.quality =
      (if (⟨5, 3, 2, false, true,
          ExportFormat.jpeg⟩ : ProcessingOptions).exportFormat =
          ExportFormat.jpeg then some (1 : ℚ) else none) :=
  claim6_current_quality_max ⟨2, 4, 6⟩
    ⟨5, 3, 2, false, true, ExportFormat.jpeg⟩ true (fun _ => true) 0
    (fullSlice ⟨2, 4, 6⟩ ⟨5, 3, 2, false, true, ExportFormat.jpeg⟩)
    (by decide)

/-- C7 counterexample: with the master context available but the context of
the first per-slice canvas unavailable, `processImage` raises no error and
returns a result in which band 0 is silently missing (only band 1 appears):
a per-slice surface failure is not fatal and the slice is dropped without
the error being raised. -/
theorem claim7_counterexample :
    processImage ⟨0, 4, 4⟩ ⟨2, 2, 1, true, true, ExportFormat.png⟩ true
        (fun i => !(i == 0)) 2 =
      ProcResult.ok [mkSlice 2 ExportFormat.png none (1, 1, 1)] ∧
      (fun i : Nat => !(i == 0)) 0 = false := by
  constructor
  · rfl
  · rfl

/-- C7 amended: only the master resize canvas's missing context fails the
call (with the thrown error, fatal for that image only); a missing
per-slice context does not raise an error — that band is silently omitted
while the remaining bands are still produced. -/
theorem claim7_surface_failures (img : Image) (o : ProcessingOptions)
    (ctxOk : Nat → Bool) (fuel : Nat) (l : List (Nat × Int × Int))
    (he : o.enableSlicing = true)
    (hb : bandsAux fuel o.targetHeight o.sliceHeight 0 0 = some l) :
    processImage img o false ctxOk fuel =
      ProcResult.error "Could not get canvas context" ∧
    processImage img o true ctxOk fuel =
      ProcResult.ok ((l.filter fun b => ctxOk b.1).map
        (mkSlice o.targetWidth o.exportFormat (qualityOf o.exportFormat))) := by
  constructor
  · rfl
  · simp [processImage, he, sliceLoopAux_eq, hb]

/-- C7 amended witness: a concrete two-band call in which the context of
band 0 is unavailable. -/
theorem claim7_surface_failures_witness :
    processImage ⟨9, 4, 4⟩ ⟨2, 2, 1, true, true, ExportFormat.png⟩ false
        (fun i => !(i == 0)) 2 =
      ProcResult.error "Could not get canvas context" ∧
    processImage ⟨9, 4, 4⟩ ⟨2, 2, 1, true, true, ExportFormat.png⟩ true
        (fun i => !(i == 0)) 2 =
      ProcResult.ok ((([(0, 0, 1), (1, 1, 1)] :
          List (Nat × Int × Int)).filter
            (fun b => (fun i : Nat => !(i == 0)) b.1)).map
        (mkSlice 2 ExportFormat.png (qualityOf ExportFormat.png))) :=
  claim7_surface_failures ⟨9, 4, 4⟩ ⟨2, 2, 1, true, true, ExportFormat.png⟩
    (fun i => !(i == 0)) 2 [(0, 0, 1), (1, 1, 1)] rfl (by rfl)

/-- C8 counterexample: a zero-height buffer processed with slicing disabled
yields one slice (the full-image slice), not zero: the claim's "every input
buffer" fails on the disabled-slicing path. -/
theorem claim8_counterexample :
    (slicesOf (processImage ⟨0, 10, 20⟩
        ⟨3, 0, 2, false, true, ExportFormat.png⟩ true (fun _ => true)
        0)).length = 1 := by
  rfl

/-- C8 amended: with slicing enabled, a buffer of height 0 produces zero
slices (the loop body never runs). -/
theorem claim8_zero_height (img : Image) (o : ProcessingOptions)
    (ctxOk : Nat → Bool) (fuel : Nat) (he : o.enableSlicing = true)
    (h0 : o.targetHeight = 0) :
    processImage img o true ctxOk fuel = ProcResult.ok [] := by
  cases fuel <;> simp [processImage, he, sliceLoopAux, h0]

/-- C8 amended witness: a concrete zero-height buffer with slicing enabled. -/
theorem claim8_zero_height_witness :
    processImage ⟨4, 10, 20⟩ ⟨3, 0, 5, true, true, ExportFormat.jpeg⟩ true
        (fun _ => true) 7 = ProcResult.ok [] :=
  claim8_zero_height ⟨4, 10, 20⟩ ⟨3, 0, 5, true, true, ExportFormat.jpeg⟩
    (fun _ => true) 7 rfl rfl

/-- C9: every buffer the pipeline creates — the master resize canvas, every
per-slice canvas of a produced slice, and the stitched canvas — starts with
a white fill of its entire area before any source pixels are drawn when the
format is jpeg, and carries no fill at all when it is png (or gif). -/
theorem claim9_white_fill (img : Image) (o : ProcessingOptions)
    (ctxOk : Nat → Bool) (fuel : Nat) (s : SliceResult)
    (images : List Image) (tw : Int) (c : Canvas)
    (hs : s ∈ slicesOf (processImage img o true ctxOk fuel))
    (hc : stitchImages images tw o.exportFormat true = Except.ok c) :
    whiteFillFirstB o.exportFormat (masterCanvas img o) = true ∧
    whiteFillFirstB o.exportFormat s.url.canvas = true ∧
    whiteFillFirstB o.exportFormat c = true := by
  refine ⟨?_, ?_, ?_⟩
  · cases hfmt : o.exportFormat <;>
      simp [whiteFillFirstB, masterCanvas, isDrawB, hfmt]
  · rcases mem_slices_shape img o true ctxOk fuel s hs with h | ⟨b, h⟩ <;>
      subst h
    · cases hfmt : o.exportFormat <;>
        simp [whiteFillFirstB, fullSlice, masterCanvas, isDrawB, hfmt]
    · cases hfmt : o.exportFormat <;>
        simp [whiteFillFirstB, mkSlice, sliceCanvas, isDrawB, hfmt]
  · rw [stitchImages] at hc
    simp only [Bool.true_eq_false, if_false, reduceIte, Except.ok.injEq] at hc
    subst hc
    have hall : (stitchDraws tw 0
        (images.map fun img => (img, scaledHeight tw img))).all isDrawB =
        true :=
      stitchDraws_all_draw tw _ 0
    cases hfmt : o.exportFormat <;>
      simp [whiteFillFirstB, isDrawB, hfmt, hall]

/-- C9 witness: a concrete jpeg call (disabled slicing, so the one slice is
the master) and a concrete one-image stitch. -/
theorem claim9_white_fill_witness :
    whiteFillFirstB ExportFormat.jpeg
        (masterCanvas ⟨0, 8, 6⟩ ⟨4, 2, 1, false, true, ExportFormat.jpeg⟩) =
      true ∧
    whiteFillFirstB ExportFormat.jpeg
        (fullSlice ⟨0, 8, 6⟩
          ⟨4, 2, 1, false, true, ExportFormat.jpeg⟩).url.canvas = true ∧
    whiteFillFirstB ExportFormat.jpeg
        { width := 4, height := 0,
          ops := [DrawOp.fillWhite 0 0 4 0] } = true :=
  claim9_white_fill ⟨0, 8, 6⟩ ⟨4, 2, 1, false, true, ExportFormat.jpeg⟩
    (fun _ => true) 0
    (fullSlice ⟨0, 8, 6⟩ ⟨4, 2, 1, false, true, ExportFormat.jpeg⟩)
    [] 4
    { width := 4, height := 0, ops := [DrawOp.fillWhite 0 0 4 0] }
    (by decide) (by rfl)

end ImageSlicer
